import Mathlib

/-!
# polycliptest: circle approximation, slot assembly and the operation loop

A shallow embedding of `polycliptest.go`.

* Numbers: the program computes in `float64`.  The embedding is generic in a
  field `α` of coordinates, and the three things the program takes from Go's
  `math` package (`Pi`, `Sin`, `Cos`) are a record `GoMath α`.  The theorems
  about exact geometry instantiate `α` with the real numbers and the record
  with the real `π`, `sin`, `cos`.
* The loop counter `j` of `circle` is a `float64` that only ever holds the
  whole numbers `1, 2, 3, …`; it is a natural number here, and the loop test
  `j < 4*n` (with `n = float64(s)`) is the same comparison on integers.
* The boolean engine `Polygon.Construct` of `polyclip-go` is not part of the
  repository; the operation loop takes it as a parameter.
-/

namespace Polycliptest

/-- The part of Go's `math` package that the program uses. -/
structure GoMath (α : Type) where
  /-- The constant `math.Pi`. -/
  Pi : α
  /-- The function `math.Sin`. -/
  Sin : α → α
  /-- The function `math.Cos`. -/
  Cos : α → α

/-- The type `polyclip.Point`: a pair of coordinates. -/
structure Point (α : Type) where
  X : α
  Y : α
deriving DecidableEq

/-- The type `polyclip.Contour`: a sequence of points. -/
abbrev Contour (α : Type) := List (Point α)

/-- The type `polyclip.Polygon`: a sequence of contours. -/
abbrev Polygon (α : Type) := List (Contour α)

/-- The closure `radians` inside `circle`: degrees to radians. -/
def radians {α : Type} [Field α] (math : GoMath α) (deg : α) : α :=
  (deg * math.Pi) / 180

/-- The displacement that one pass of the loop body of `circle` adds to the
running point `p`, for the loop counter `j` (source lines 25-27). -/
def segment {α : Type} [Field α] (math : GoMath α) (r n la : α) (j : Nat) : Point α :=
  let sa := radians math (90 - ((90 / (2 * n)) * (2 * (j : α) - 1)))
  ⟨2 * r * math.Cos la * math.Sin sa, 2 * r * math.Cos la * math.Cos sa⟩

/-- The `for j := 1.0; j < 4*n; j++` loop of `circle`, entered with counter
`j`, running point `p` and the contour `ps` built so far. -/
def circle.loop {α : Type} [Field α] (math : GoMath α) (r n la : α) (s : Int)
    (j : Nat) (p : Point α) (ps : Contour α) : Contour α :=
  if (j : Int) < 4 * s then
    let d := segment math r n la j
    let p1 : Point α := ⟨p.X + d.X, p.Y + d.Y⟩
    circle.loop math r n la s (j + 1) p1 (ps ++ [p1])
  else ps
termination_by (4 * s - j).toNat
decreasing_by omega

/-- The closure `circle` inside `circle_polygon`: appends to `ps` the start
point `(x, y)` and then the points reached by adding the successive segments. -/
def circle {α : Type} [Field α] (math : GoMath α) (x y r : α) (s : Int)
    (ps : Contour α) : Contour α :=
  let n : α := (s : α)
  let p : Point α := ⟨x, y⟩
  let ps1 := ps ++ [p]
  let la := radians math (90 - (90 / (2 * n)))
  circle.loop math r n la s 1 p ps1

/-- The function `circle_polygon`: a circle polygon with `s` segments per quarter circle. -/
def circle_polygon {α : Type} [Field α] (math : GoMath α) (cx cy r : α) (s : Int) :
    Contour α :=
  circle math cx (cy - r) r s []

/-- The function `prepare`: the x and the y coordinates of a contour, as two sequences. -/
def prepare {α : Type} (pts : Contour α) : List α × List α :=
  pts.foldl (fun acc p => (acc.1 ++ [p.X], acc.2 ++ [p.Y])) ([], [])

/-- The command-line flags `segments`, `radius`, `add_right_circle`. -/
structure Flags (α : Type) where
  segments : Int
  radius : α
  add_right_circle : Bool

/-- The three contours that `main` builds on source lines 66-76. -/
structure Slot (α : Type) where
  s_pts : Contour α
  l_pts : Contour α
  r_pts : Contour α

/-- Source lines 66-76 of `main`: the rectangle, the left circle, and the right
circle (the empty contour unless `add_right_circle` is set). -/
def slot {α : Type} [Field α] (math : GoMath α) (flags : Flags α) : Slot α :=
  let center : Point α := ⟨30, 15⟩
  let width : α := 20
  let sw := width - flags.radius
  let l : Point α := ⟨center.X - sw / 2, center.Y⟩
  let r : Point α := ⟨center.X + sw / 2, center.Y⟩
  let s_pts : Contour α :=
    [⟨l.X, l.Y - flags.radius⟩, ⟨r.X, r.Y - flags.radius⟩,
     ⟨r.X, r.Y + flags.radius⟩, ⟨l.X, l.Y + flags.radius⟩]
  let l_pts := circle_polygon math l.X l.Y flags.radius flags.segments
  let r_pts : Contour α :=
    if flags.add_right_circle then circle_polygon math r.X r.Y flags.radius flags.segments
    else []
  ⟨s_pts, l_pts, r_pts⟩

/-- The type `polyclip.Op`, declared in `polyclip-go` as the constants
`UNION, INTERSECTION, DIFFERENCE, XOR` (in this order, `UNION` the zero value). -/
inductive Op where
  | UNION
  | INTERSECTION
  | DIFFERENCE
  | XOR
deriving DecidableEq

/-- The slice `ops` of `main`: the operation names, in the order they are run. -/
def ops : List String := ["Union", "Intersection", "Difference", "XOR"]

/-- The map `op_map` of `main`; a name that is not a key reads as the zero value. -/
def op_map (name : String) : Op :=
  if name = "Union" then Op.UNION
  else if name = "Intersection" then Op.INTERSECTION
  else if name = "XOR" then Op.XOR
  else if name = "Difference" then Op.DIFFERENCE
  else Op.UNION

/-- One call `subject.Construct(op, clipping)` of the boolean engine. -/
structure Call (α : Type) where
  subject : Polygon α
  op : Op
  clipping : Polygon α

/-- What one pass of the operation loop produces: the name, the polygon
`op_poly`, the engine calls made (in order), the contours drawn for the row and
whether the "failed OR empty" line was printed. -/
structure Row (α : Type) where
  name : String
  op_poly : Polygon α
  calls : List (Call α)
  drawn : List (List α × List α)
  reported_empty : Bool

/-- The drawing part of the loop body (source lines 142-155). -/
def draw_row {α : Type} (name : String) (op_poly : Polygon α) (calls : List (Call α)) :
    Row α :=
  if op_poly.length > 0 then
    let drawn := (op_poly.map prepare).filter (fun c => c.1.length > 0 && c.2.length > 0)
    ⟨name, op_poly, calls, drawn, false⟩
  else ⟨name, op_poly, calls, [], true⟩

/-- The body of the operation loop of `main` (source lines 128-155) for the
operation named `name`, with the boolean engine `Construct` as a parameter. -/
def operation {α : Type} (Construct : Polygon α → Op → Polygon α → Polygon α)
    (add_right_circle : Bool) (s_pts l_pts r_pts : Contour α) (name : String) : Row α :=
  let op := op_map name
  let op_poly0 : Polygon α := [s_pts]
  let op_poly1 := Construct op_poly0 op [l_pts]
  if add_right_circle then
    let op_poly2 := Construct op_poly1 op [r_pts]
    draw_row name op_poly2 [⟨op_poly0, op, [l_pts]⟩, ⟨op_poly1, op, [r_pts]⟩]
  else
    draw_row name op_poly1 [⟨op_poly0, op, [l_pts]⟩]

/-- The operation loop of `main` (source lines 127-156): one row per name of `ops`. -/
def operation_loop {α : Type} (Construct : Polygon α → Op → Polygon α → Polygon α)
    (add_right_circle : Bool) (s_pts l_pts r_pts : Contour α) : List (Row α) :=
  ops.map (operation Construct add_right_circle s_pts l_pts r_pts)

/-- What a run of `main` that does not abort leaves behind: the contours
printed to the terminal, the source contours drawn, and the operation rows. -/
structure Output (α : Type) where
  printed : List (Contour α)
  drawn : List (List α × List α)
  rows : List (Row α)

/-- The function `main`, with the flags, the boolean engine and the outcome of `os.Create`
as inputs.  The only way it aborts is the `panic` after a failed `os.Create`. -/
def main {α : Type} [Field α] (math : GoMath α)
    (Construct : Polygon α → Op → Polygon α → Polygon α) (flags : Flags α)
    (file_created : Bool) : Except String (Output α) :=
  let sl := slot math flags
  let printed :=
    if flags.add_right_circle then [sl.s_pts, sl.l_pts, sl.r_pts] else [sl.s_pts, sl.l_pts]
  if !file_created then
    Except.error "ERROR: Unable to create the 'polycliptest.svg' file..."
  else
    let Xs := prepare sl.s_pts
    let Xl := prepare sl.l_pts
    let Xr : List α × List α := if flags.add_right_circle then prepare sl.r_pts else ([], [])
    let drawn := if flags.add_right_circle then [Xs, Xl, Xr] else [Xs, Xl]
    let rows := operation_loop Construct flags.add_right_circle sl.s_pts sl.l_pts sl.r_pts
    Except.ok ⟨printed, drawn, rows⟩

/-- The closed form the specification gives for the `k`-th point of the circle
contour: the vertex of the regular `4*s`-gon at angle `k*π/(2*s)` from the top. -/
def regular_vertex {α : Type} [Field α] (math : GoMath α) (cx cy r : α) (s : Int)
    (k : Nat) : Point α :=
  ⟨cx + r * math.Sin ((k : α) * math.Pi / (2 * (s : α))),
   cy - r * math.Cos ((k : α) * math.Pi / (2 * (s : α)))⟩

/-! ## Lemmas on the loop -/

theorem circle.loop_length {α : Type} [Field α] (math : GoMath α) (r n la : α) (s : Int) :
    ∀ (d j : Nat) (p : Point α) (ps : Contour α), (4 * s - j).toNat = d →
      (circle.loop math r n la s j p ps).length = ps.length + d := by
  intro d
  induction d with
  | zero =>
    intro j p ps h
    rw [circle.loop, if_neg (by omega)]; rfl
  | succ d ih =>
    intro j p ps h
    rw [circle.loop, if_pos (by omega)]
    simp only
    rw [ih (j + 1) _ _ (by push_cast; omega)]
    simp
    omega

theorem circle.length_eq {α : Type} [Field α] (math : GoMath α) (cx cy r : α)
    (s : Int) (hs : 1 ≤ s) :
    ((circle_polygon math cx cy r s).length : Int) = 4 * s := by
  unfold circle_polygon circle
  simp only
  rw [circle.loop_length math r _ _ s (4 * s - 1).toNat 1 _ _ (by simp)]
  simp
  omega

/-! ## Exact geometry: the loop over the real numbers -/

theorem radians_la (n : ℝ) (hn : n ≠ 0) :
    radians ⟨Real.pi, Real.sin, Real.cos⟩ (90 - (90 / (2 * n)))
      = Real.pi / 2 - Real.pi / (4 * n) := by
  simp only [radians]
  field_simp
  ring

theorem radians_sa (n : ℝ) (hn : n ≠ 0) (j : Nat) :
    radians ⟨Real.pi, Real.sin, Real.cos⟩ (90 - ((90 / (2 * n)) * (2 * (j : ℝ) - 1)))
      = Real.pi / 2 - (2 * (j : ℝ) - 1) * (Real.pi / (4 * n)) := by
  simp only [radians]
  field_simp
  ring

theorem segment_real (r n : ℝ) (hn : n ≠ 0) (j : Nat) :
    segment ⟨Real.pi, Real.sin, Real.cos⟩ r n
        (radians ⟨Real.pi, Real.sin, Real.cos⟩ (90 - (90 / (2 * n)))) j
      = ⟨r * (Real.sin (2 * (j : ℝ) * (Real.pi / (4 * n)))
              - Real.sin ((2 * (j : ℝ) - 2) * (Real.pi / (4 * n)))),
         r * (Real.cos ((2 * (j : ℝ) - 2) * (Real.pi / (4 * n)))
              - Real.cos (2 * (j : ℝ) * (Real.pi / (4 * n))))⟩ := by
  simp only [segment]
  rw [radians_la n hn, radians_sa n hn j]
  simp only [Real.cos_pi_div_two_sub, Real.sin_pi_div_two_sub]
  have e1 : 2 * (j : ℝ) * (Real.pi / (4 * n))
      = (2 * (j : ℝ) - 1) * (Real.pi / (4 * n)) + Real.pi / (4 * n) := by ring
  have e2 : (2 * (j : ℝ) - 2) * (Real.pi / (4 * n))
      = (2 * (j : ℝ) - 1) * (Real.pi / (4 * n)) - Real.pi / (4 * n) := by ring
  rw [e1, e2, Real.sin_add, Real.sin_sub, Real.cos_add, Real.cos_sub]
  congr 1 <;> ring

theorem regular_vertex_step (cx cy r : ℝ) (s : Int) (hs : 1 ≤ s) (j : Nat) (hj : 1 ≤ j) :
    (⟨(regular_vertex ⟨Real.pi, Real.sin, Real.cos⟩ cx cy r s (j - 1)).X
        + (segment ⟨Real.pi, Real.sin, Real.cos⟩ r (s : ℝ)
            (radians ⟨Real.pi, Real.sin, Real.cos⟩ (90 - (90 / (2 * (s : ℝ))))) j).X,
      (regular_vertex ⟨Real.pi, Real.sin, Real.cos⟩ cx cy r s (j - 1)).Y
        + (segment ⟨Real.pi, Real.sin, Real.cos⟩ r (s : ℝ)
            (radians ⟨Real.pi, Real.sin, Real.cos⟩ (90 - (90 / (2 * (s : ℝ))))) j).Y⟩ : Point ℝ)
      = regular_vertex ⟨Real.pi, Real.sin, Real.cos⟩ cx cy r s j := by
  have hn : (s : ℝ) ≠ 0 := by
    have : (0 : ℝ) < (s : ℝ) := by exact_mod_cast (by omega : (0 : Int) < s)
    exact ne_of_gt this
  rw [segment_real r (s : ℝ) hn j]
  simp only [regular_vertex]
  have c1 : ((j - 1 : Nat) : ℝ) = (j : ℝ) - 1 := by
    rw [Nat.cast_sub hj]; simp
  have e1 : ((j - 1 : Nat) : ℝ) * Real.pi / (2 * (s : ℝ))
      = (2 * (j : ℝ) - 2) * (Real.pi / (4 * (s : ℝ))) := by
    rw [c1]; field_simp; ring
  have e2 : (j : ℝ) * Real.pi / (2 * (s : ℝ)) = 2 * (j : ℝ) * (Real.pi / (4 * (s : ℝ))) := by
    field_simp; ring
  rw [e1, e2]
  congr 1 <;> ring

theorem circle.loop_real (cx cy r : ℝ) (s : Int) (hs : 1 ≤ s) :
    ∀ (d j : Nat) (ps : Contour ℝ), (4 * s - j).toNat = d → 1 ≤ j →
      circle.loop ⟨Real.pi, Real.sin, Real.cos⟩ r (s : ℝ)
          (radians ⟨Real.pi, Real.sin, Real.cos⟩ (90 - (90 / (2 * (s : ℝ))))) s j
          (regular_vertex ⟨Real.pi, Real.sin, Real.cos⟩ cx cy r s (j - 1)) ps
        = ps ++ (List.range' j d).map
            (regular_vertex ⟨Real.pi, Real.sin, Real.cos⟩ cx cy r s) := by
  intro d
  induction d with
  | zero =>
    intro j ps h _
    rw [circle.loop, if_neg (by omega)]; simp
  | succ d ih =>
    intro j ps h hj
    rw [circle.loop, if_pos (by omega)]
    simp only
    rw [regular_vertex_step cx cy r s hs j hj]
    have := ih (j + 1) (ps ++ [regular_vertex ⟨Real.pi, Real.sin, Real.cos⟩ cx cy r s j])
      (by push_cast; omega) (by omega)
    simp only [Nat.add_sub_cancel] at this
    rw [this]
    simp [List.range'_succ]

/-- Over the real numbers and for `s ≥ 1`, `circle_polygon` is the list of the
vertices `regular_vertex 0, …, regular_vertex (4*s - 1)`. -/
theorem circle_polygon_eq_map (cx cy r : ℝ) (s : Int) (hs : 1 ≤ s) :
    circle_polygon ⟨Real.pi, Real.sin, Real.cos⟩ cx cy r s
      = (List.range (4 * s).toNat).map
          (regular_vertex ⟨Real.pi, Real.sin, Real.cos⟩ cx cy r s) := by
  have h0 : (⟨cx, cy - r⟩ : Point ℝ)
      = regular_vertex ⟨Real.pi, Real.sin, Real.cos⟩ cx cy r s (1 - 1) := by
    simp [regular_vertex]
  unfold circle_polygon circle
  simp only
  rw [h0, circle.loop_real cx cy r s hs (4 * s - 1).toNat 1 _ (by simp) (le_refl 1)]
  obtain ⟨m, hm⟩ : ∃ m : Nat, (4 * s).toNat = m + 1 := ⟨(4 * s).toNat - 1, by omega⟩
  have hm2 : (4 * s - 1).toNat = m := by omega
  rw [hm, hm2, List.range_eq_range', List.range'_succ]
  simp

theorem circle_polygon_getElem? (cx cy r : ℝ) (s : Int) (hs : 1 ≤ s) (k : Nat)
    (hk : (k : Int) < 4 * s) :
    (circle_polygon ⟨Real.pi, Real.sin, Real.cos⟩ cx cy r s)[k]?
      = some (regular_vertex ⟨Real.pi, Real.sin, Real.cos⟩ cx cy r s k) := by
  rw [circle_polygon_eq_map cx cy r s hs, List.getElem?_map,
    List.getElem?_range (by omega : k < (4 * s).toNat)]
  rfl

theorem mem_circle_polygon (cx cy r : ℝ) (s : Int) (hs : 1 ≤ s) (p : Point ℝ) :
    p ∈ circle_polygon ⟨Real.pi, Real.sin, Real.cos⟩ cx cy r s ↔
      ∃ k : Nat, (k : Int) < 4 * s ∧
        p = regular_vertex ⟨Real.pi, Real.sin, Real.cos⟩ cx cy r s k := by
  rw [circle_polygon_eq_map cx cy r s hs, List.mem_map]
  constructor
  · rintro ⟨k, hk, rfl⟩
    exact ⟨k, by have := List.mem_range.mp hk; omega, rfl⟩
  · rintro ⟨k, hk, rfl⟩
    exact ⟨k, List.mem_range.mpr (by omega), rfl⟩

theorem regular_vertex_on_circle (cx cy r : ℝ) (s : Int) (k : Nat) :
    ((regular_vertex ⟨Real.pi, Real.sin, Real.cos⟩ cx cy r s k).X - cx) ^ 2
      + ((regular_vertex ⟨Real.pi, Real.sin, Real.cos⟩ cx cy r s k).Y - cy) ^ 2 = r ^ 2 := by
  simp only [regular_vertex]
  have h := Real.sin_sq_add_cos_sq ((k : ℝ) * Real.pi / (2 * (s : ℝ)))
  linear_combination r ^ 2 * h

/-! ## The claims on `circle_polygon` -/

/-- C2: over the real numbers, for `r > 0` and `s ≥ 1`, every point `p` of
`circle_polygon cx cy r s` lies at distance exactly `r` from the center:
`(p.X - cx)^2 + (p.Y - cy)^2 = r^2`. -/
theorem circle_polygon_on_circle (cx cy r : ℝ) (s : Int) (_hr : 0 < r) (hs : 1 ≤ s) :
    ∀ p ∈ circle_polygon ⟨Real.pi, Real.sin, Real.cos⟩ cx cy r s,
      (p.X - cx) ^ 2 + (p.Y - cy) ^ 2 = r ^ 2 := by
  intro p hp
  obtain ⟨k, _, rfl⟩ := (mem_circle_polygon cx cy r s hs p).mp hp
  exact regular_vertex_on_circle cx cy r s k

theorem circle_polygon_on_circle_witness :
    (0 : ℝ) < 1 ∧ (1 : Int) ≤ 2 ∧
      ∀ p ∈ circle_polygon ⟨Real.pi, Real.sin, Real.cos⟩ 3 4 1 2,
        (p.X - 3) ^ 2 + (p.Y - 4) ^ 2 = (1 : ℝ) ^ 2 :=
  ⟨by norm_num, by decide, circle_polygon_on_circle 3 4 1 2 (by norm_num) (by decide)⟩

/-- C5: over the real numbers, for `r > 0` and `s ≥ 1`, `circle_polygon cx cy r s`
is the regular `4*s`-gon inscribed in the circle, starting at the topmost point
and going once around in equal angular steps: it has `4*s` points, its `k`-th
point is `(cx + r*sin(k*π/(2*s)), cy - r*cos(k*π/(2*s)))` for every `k < 4*s`,
and its first point is `(cx, cy - r)`. -/
theorem circle_polygon_regular (cx cy r : ℝ) (s : Int) (_hr : 0 < r) (hs : 1 ≤ s) :
    ((circle_polygon ⟨Real.pi, Real.sin, Real.cos⟩ cx cy r s).length : Int) = 4 * s ∧
    (∀ k : Nat, (k : Int) < 4 * s →
      (circle_polygon ⟨Real.pi, Real.sin, Real.cos⟩ cx cy r s)[k]?
        = some ⟨cx + r * Real.sin ((k : ℝ) * Real.pi / (2 * (s : ℝ))),
                cy - r * Real.cos ((k : ℝ) * Real.pi / (2 * (s : ℝ)))⟩) ∧
    (circle_polygon ⟨Real.pi, Real.sin, Real.cos⟩ cx cy r s)[0]? = some ⟨cx, cy - r⟩ := by
  refine ⟨circle.length_eq _ cx cy r s hs, ?_, ?_⟩
  · intro k hk
    rw [circle_polygon_getElem? cx cy r s hs k hk]
    rfl
  · rw [circle_polygon_getElem? cx cy r s hs 0 (by omega)]
    simp [regular_vertex]

theorem circle_polygon_regular_witness :
    (0 : ℝ) < 1 ∧ (1 : Int) ≤ 1 ∧
    ((circle_polygon ⟨Real.pi, Real.sin, Real.cos⟩ 0 0 1 1).length : Int) = 4 * 1 ∧
    (∀ k : Nat, (k : Int) < 4 * 1 →
      (circle_polygon ⟨Real.pi, Real.sin, Real.cos⟩ 0 0 1 1)[k]?
        = some ⟨0 + 1 * Real.sin ((k : ℝ) * Real.pi / (2 * ((1 : Int) : ℝ))),
                0 - 1 * Real.cos ((k : ℝ) * Real.pi / (2 * ((1 : Int) : ℝ)))⟩) ∧
    (circle_polygon ⟨Real.pi, Real.sin, Real.cos⟩ (0 : ℝ) 0 1 1)[0]? = some ⟨0, 0 - 1⟩ :=
  ⟨by norm_num, by decide, circle_polygon_regular 0 0 1 1 (by norm_num) (by decide)⟩

/-- The contour for `s = 1` is the square with corners at the top, right,
bottom and left of the circle, in this order. -/
theorem circle_polygon_one (cx cy r : ℝ) :
    circle_polygon ⟨Real.pi, Real.sin, Real.cos⟩ cx cy r 1
      = [⟨cx, cy - r⟩, ⟨cx + r, cy⟩, ⟨cx, cy + r⟩, ⟨cx - r, cy⟩] := by
  rw [circle_polygon_eq_map cx cy r 1 (le_refl 1)]
  have h3 : (3 : ℝ) * Real.pi / 2 = Real.pi / 2 + Real.pi := by ring
  have h2 : (2 : ℝ) * Real.pi / 2 = Real.pi := by ring
  simp [regular_vertex, List.range_succ, h3, h2, Real.sin_add, Real.cos_add]
  ring

/-- C1: for every center `(cx, cy)`, every radius `r` and every segment count
`s ≥ 1`, `circle_polygon cx cy r s` returns a contour of exactly `4*s` points
(whatever the coordinate field and whatever `math.Sin`, `math.Cos` compute). -/
theorem circle_polygon_length {α : Type} [Field α] (math : GoMath α) (cx cy r : α)
    (s : Int) (hs : 1 ≤ s) :
    ((circle_polygon math cx cy r s).length : Int) = 4 * s :=
  circle.length_eq math cx cy r s hs

theorem circle_polygon_length_witness :
    (1 : Int) ≤ 4 ∧
      ((circle_polygon ⟨Real.pi, Real.sin, Real.cos⟩ 30 15 8 4).length : Int) = 4 * 4 :=
  ⟨by decide, circle_polygon_length ⟨Real.pi, Real.sin, Real.cos⟩ 30 15 8 4 (by decide)⟩

/-- For a segment count `s ≤ 0` the loop body never runs: the contour is the
start point alone. -/
theorem circle_polygon_nonpos {α : Type} [Field α] (math : GoMath α) (cx cy r : α)
    (s : Int) (hs : s ≤ 0) :
    circle_polygon math cx cy r s = [⟨cx, cy - r⟩] := by
  unfold circle_polygon circle
  simp only
  rw [circle.loop, if_neg (by omega)]
  rfl

/-- C6, refuted at `cx = cy = 0`, `r = 1`: `circle_polygon` has no error result
(its value is a contour), and for `s = 0` the contour is the single point
`(0, -1)`, not the four-point contour of `s = 1`. -/
theorem zero_segments_single_point :
    circle_polygon ⟨Real.pi, Real.sin, Real.cos⟩ (0 : ℝ) 0 1 0 = [⟨0, 0 - 1⟩] ∧
    circle_polygon ⟨Real.pi, Real.sin, Real.cos⟩ (0 : ℝ) 0 1 0
      ≠ circle_polygon ⟨Real.pi, Real.sin, Real.cos⟩ (0 : ℝ) 0 1 1 := by
  have h0 := circle_polygon_nonpos ⟨Real.pi, Real.sin, Real.cos⟩ (0 : ℝ) 0 1 0 (le_refl 0)
  refine ⟨h0, fun h => ?_⟩
  have h1 := circle.length_eq ⟨Real.pi, Real.sin, Real.cos⟩ (0 : ℝ) 0 1 1 (le_refl 1)
  rw [← h, h0] at h1
  simp at h1

/-- C6, amended: for segment count `s = 0` nothing is validated or clamped;
`circle_polygon cx cy r 0` returns the one-point contour `[(cx, cy - r)]`. -/
theorem circle_polygon_zero {α : Type} [Field α] (math : GoMath α) (cx cy r : α) :
    circle_polygon math cx cy r 0 = [⟨cx, cy - r⟩] :=
  circle_polygon_nonpos math cx cy r 0 (le_refl 0)

/-! ## Chords -/

theorem segment_sq (r n la : ℝ) (j : Nat) :
    (segment ⟨Real.pi, Real.sin, Real.cos⟩ r n la j).X ^ 2
      + (segment ⟨Real.pi, Real.sin, Real.cos⟩ r n la j).Y ^ 2
      = (2 * r * Real.cos la) ^ 2 := by
  simp only [segment]
  have h := Real.sin_sq_add_cos_sq
    (radians ⟨Real.pi, Real.sin, Real.cos⟩ (90 - ((90 / (2 * n)) * (2 * (j : ℝ) - 1))))
  linear_combination (2 * r * Real.cos la) ^ 2 * h

theorem cast_pos_of_one_le (s : Int) (hs : 1 ≤ s) : (0 : ℝ) < (s : ℝ) := by
  exact_mod_cast (by omega : (0 : Int) < s)

theorem half_step_bounds (s : Int) (hs : 1 ≤ s) :
    0 < Real.pi / (4 * (s : ℝ)) ∧ Real.pi / (4 * (s : ℝ)) ≤ Real.pi / 4 := by
  have h0 := cast_pos_of_one_le s hs
  have h1 : (1 : ℝ) ≤ (s : ℝ) := by exact_mod_cast hs
  have hpi := Real.pi_pos
  constructor
  · positivity
  · apply div_le_div_of_nonneg_left (le_of_lt hpi) (by norm_num) (by linarith)

/-- The squared length of the step from vertex `k` to vertex `k + 1`. -/
theorem regular_vertex_chord_sq (cx cy r : ℝ) (s : Int) (hs : 1 ≤ s) (k : Nat) :
    ((regular_vertex ⟨Real.pi, Real.sin, Real.cos⟩ cx cy r s (k + 1)).X
        - (regular_vertex ⟨Real.pi, Real.sin, Real.cos⟩ cx cy r s k).X) ^ 2
      + ((regular_vertex ⟨Real.pi, Real.sin, Real.cos⟩ cx cy r s (k + 1)).Y
        - (regular_vertex ⟨Real.pi, Real.sin, Real.cos⟩ cx cy r s k).Y) ^ 2
      = (2 * r * Real.cos (Real.pi / 2 - Real.pi / (4 * (s : ℝ)))) ^ 2 := by
  have hstep := regular_vertex_step cx cy r s hs (k + 1) (by omega)
  simp only [Nat.add_sub_cancel] at hstep
  have hn : (s : ℝ) ≠ 0 := ne_of_gt (cast_pos_of_one_le s hs)
  have hsq := segment_sq r (s : ℝ)
    (radians ⟨Real.pi, Real.sin, Real.cos⟩ (90 - (90 / (2 * (s : ℝ))))) (k + 1)
  rw [radians_la (s : ℝ) hn] at hsq hstep
  rw [← hstep, ← hsq]
  simp only
  ring

theorem consecutive_points_dist (cx cy r : ℝ) (s : Int) (hr : 0 < r) (hs : 1 ≤ s) (k : Nat)
    (hk : (k : Int) + 1 < 4 * s) :
    ∃ p q : Point ℝ,
      (circle_polygon ⟨Real.pi, Real.sin, Real.cos⟩ cx cy r s)[k]? = some p ∧
      (circle_polygon ⟨Real.pi, Real.sin, Real.cos⟩ cx cy r s)[k + 1]? = some q ∧
      Real.sqrt ((q.X - p.X) ^ 2 + (q.Y - p.Y) ^ 2)
        = 2 * r * Real.cos (Real.pi / 2 - Real.pi / (4 * (s : ℝ))) := by
  refine ⟨_, _, circle_polygon_getElem? cx cy r s hs k (by omega),
    circle_polygon_getElem? cx cy r s hs (k + 1) (by push_cast; omega), ?_⟩
  rw [regular_vertex_chord_sq cx cy r s hs k]
  apply Real.sqrt_sq
  have hb := half_step_bounds s hs
  have hsin : 0 ≤ Real.sin (Real.pi / (4 * (s : ℝ))) :=
    Real.sin_nonneg_of_nonneg_of_le_pi (le_of_lt hb.1) (by linarith [Real.pi_pos])
  rw [Real.cos_pi_div_two_sub]
  positivity

/-- C8, refuted at `cx = cy = 0`, `r = 1`, `s = 2`: the chord from point 0 to
point 1 of the octagon does not have length `2*r*cos(π/(4*s))`. -/
theorem octagon_chord_not_cos_half_step :
    ∃ p q : Point ℝ,
      (circle_polygon ⟨Real.pi, Real.sin, Real.cos⟩ (0 : ℝ) 0 1 2)[0]? = some p ∧
      (circle_polygon ⟨Real.pi, Real.sin, Real.cos⟩ (0 : ℝ) 0 1 2)[1]? = some q ∧
      Real.sqrt ((q.X - p.X) ^ 2 + (q.Y - p.Y) ^ 2)
        ≠ 2 * 1 * Real.cos (Real.pi / (4 * ((2 : Int) : ℝ))) := by
  obtain ⟨p, q, hp, hq, hlen⟩ := consecutive_points_dist 0 0 1 2 (by norm_num) (by decide) 0 (by decide)
  refine ⟨p, q, hp, hq, ?_⟩
  rw [hlen]
  have hlt : Real.cos (Real.pi / 2 - Real.pi / (4 * ((2 : Int) : ℝ)))
      < Real.cos (Real.pi / (4 * ((2 : Int) : ℝ))) := by
    apply Real.cos_lt_cos_of_nonneg_of_le_pi
    · push_cast; positivity
    · push_cast; linarith [Real.pi_pos]
    · push_cast; linarith [Real.pi_pos]
  intro h
  linarith

/-- C8, amended: over the real numbers, for `r > 0` and `s ≥ 1`, every chord of
`circle_polygon cx cy r s` (the step from point `k` to point `k + 1`) has
length `2*r*cos(la)` with `la` the angle computed by the code,
`la = radians(90 - 90/(2*s)) = π/2 - π/(4*s)`, the complement of half the
angular step; that is, the chord has length `2*r*sin(π/(4*s))`. -/
theorem circle_polygon_chord_length (cx cy r : ℝ) (s : Int) (hr : 0 < r) (hs : 1 ≤ s) :
    radians ⟨Real.pi, Real.sin, Real.cos⟩ (90 - (90 / (2 * (s : ℝ))))
      = Real.pi / 2 - Real.pi / (4 * (s : ℝ)) ∧
    ∀ k : Nat, (k : Int) + 1 < 4 * s →
      ∃ p q : Point ℝ,
        (circle_polygon ⟨Real.pi, Real.sin, Real.cos⟩ cx cy r s)[k]? = some p ∧
        (circle_polygon ⟨Real.pi, Real.sin, Real.cos⟩ cx cy r s)[k + 1]? = some q ∧
        Real.sqrt ((q.X - p.X) ^ 2 + (q.Y - p.Y) ^ 2)
          = 2 * r * Real.cos
              (radians ⟨Real.pi, Real.sin, Real.cos⟩ (90 - (90 / (2 * (s : ℝ))))) ∧
        Real.sqrt ((q.X - p.X) ^ 2 + (q.Y - p.Y) ^ 2)
          = 2 * r * Real.sin (Real.pi / (4 * (s : ℝ))) := by
  have hla := radians_la (s : ℝ) (ne_of_gt (cast_pos_of_one_le s hs))
  refine ⟨hla, fun k hk => ?_⟩
  obtain ⟨p, q, hp, hq, hlen⟩ := consecutive_points_dist cx cy r s hr hs k hk
  refine ⟨p, q, hp, hq, ?_, ?_⟩
  · rw [hla]; exact hlen
  · rw [hlen, Real.cos_pi_div_two_sub]

theorem circle_polygon_chord_length_witness :
    (0 : ℝ) < 1 ∧ (1 : Int) ≤ 2 ∧
    (radians ⟨Real.pi, Real.sin, Real.cos⟩ (90 - (90 / (2 * ((2 : Int) : ℝ))))
      = Real.pi / 2 - Real.pi / (4 * ((2 : Int) : ℝ)) ∧
    ∀ k : Nat, (k : Int) + 1 < 4 * 2 →
      ∃ p q : Point ℝ,
        (circle_polygon ⟨Real.pi, Real.sin, Real.cos⟩ 0 0 1 2)[k]? = some p ∧
        (circle_polygon ⟨Real.pi, Real.sin, Real.cos⟩ 0 0 1 2)[k + 1]? = some q ∧
        Real.sqrt ((q.X - p.X) ^ 2 + (q.Y - p.Y) ^ 2)
          = 2 * 1 * Real.cos
              (radians ⟨Real.pi, Real.sin, Real.cos⟩ (90 - (90 / (2 * ((2 : Int) : ℝ))))) ∧
        Real.sqrt ((q.X - p.X) ^ 2 + (q.Y - p.Y) ^ 2)
          = 2 * 1 * Real.sin (Real.pi / (4 * ((2 : Int) : ℝ)))) :=
  ⟨by norm_num, by decide, circle_polygon_chord_length 0 0 1 2 (by norm_num) (by decide)⟩

/-! ## Radial deviation of the edges -/

/-- Squared distance from the center of a point on the segment between the
points of the circle at angles `a` and `b`. -/
theorem edge_point_sq (cx cy r a b t : ℝ) :
    ((1 - t) * (cx + r * Real.sin a) + t * (cx + r * Real.sin b) - cx) ^ 2
      + ((1 - t) * (cy - r * Real.cos a) + t * (cy - r * Real.cos b) - cy) ^ 2
      = r ^ 2 * (1 - 2 * t * (1 - t) * (1 - Real.cos (a - b))) := by
  have ha := Real.sin_sq_add_cos_sq a
  have hb := Real.sin_sq_add_cos_sq b
  rw [Real.cos_sub]
  linear_combination r ^ 2 * (1 - t) ^ 2 * ha + r ^ 2 * t ^ 2 * hb

/-- Consecutive vertices, the closing pair included, are one angular step apart. -/
theorem cos_step (s : Int) (hs : 1 ≤ s) (k : Nat) (hk : (k : Int) < 4 * s) :
    Real.cos ((k : ℝ) * Real.pi / (2 * (s : ℝ))
        - (((k + 1) % (4 * s).toNat : Nat) : ℝ) * Real.pi / (2 * (s : ℝ)))
      = Real.cos (2 * (Real.pi / (4 * (s : ℝ)))) := by
  have hn : (s : ℝ) ≠ 0 := ne_of_gt (cast_pos_of_one_le s hs)
  by_cases hlast : (k : Int) + 1 < 4 * s
  · rw [Nat.mod_eq_of_lt (by omega)]
    have e : (k : ℝ) * Real.pi / (2 * (s : ℝ)) - ((k + 1 : Nat) : ℝ) * Real.pi / (2 * (s : ℝ))
        = -(2 * (Real.pi / (4 * (s : ℝ)))) := by
      push_cast; field_simp; ring
    rw [e, Real.cos_neg]
  · have hk1 : k + 1 = (4 * s).toNat := by omega
    rw [hk1, Nat.mod_self]
    have hkr : (k : ℝ) = 4 * (s : ℝ) - 1 := by
      have : ((k : Int) : ℝ) = ((4 * s - 1 : Int) : ℝ) := by
        congr 1; omega
      push_cast at this
      exact this
    have e : (k : ℝ) * Real.pi / (2 * (s : ℝ)) - ((0 : Nat) : ℝ) * Real.pi / (2 * (s : ℝ))
        = 2 * Real.pi - 2 * (Real.pi / (4 * (s : ℝ))) := by
      rw [hkr]; push_cast; field_simp; ring
    rw [e, Real.cos_two_pi_sub]

theorem edge_bounds (cx cy r : ℝ) (s : Int) (hr : 0 < r) (hs : 1 ≤ s) (k : Nat)
    (hk : (k : Int) < 4 * s) (t : ℝ) (h0 : 0 ≤ t) (h1 : t ≤ 1) :
    r * Real.cos (Real.pi / (4 * (s : ℝ)))
      ≤ Real.sqrt
          (((1 - t) * (regular_vertex ⟨Real.pi, Real.sin, Real.cos⟩ cx cy r s k).X
            + t * (regular_vertex ⟨Real.pi, Real.sin, Real.cos⟩ cx cy r s
                ((k + 1) % (4 * s).toNat)).X - cx) ^ 2
          + ((1 - t) * (regular_vertex ⟨Real.pi, Real.sin, Real.cos⟩ cx cy r s k).Y
            + t * (regular_vertex ⟨Real.pi, Real.sin, Real.cos⟩ cx cy r s
                ((k + 1) % (4 * s).toNat)).Y - cy) ^ 2) ∧
    Real.sqrt
          (((1 - t) * (regular_vertex ⟨Real.pi, Real.sin, Real.cos⟩ cx cy r s k).X
            + t * (regular_vertex ⟨Real.pi, Real.sin, Real.cos⟩ cx cy r s
                ((k + 1) % (4 * s).toNat)).X - cx) ^ 2
          + ((1 - t) * (regular_vertex ⟨Real.pi, Real.sin, Real.cos⟩ cx cy r s k).Y
            + t * (regular_vertex ⟨Real.pi, Real.sin, Real.cos⟩ cx cy r s
                ((k + 1) % (4 * s).toNat)).Y - cy) ^ 2) ≤ r := by
  simp only [regular_vertex]
  rw [edge_point_sq, cos_step s hs k hk, Real.cos_two_mul]
  have hb := half_step_bounds s hs
  have hcos : 0 ≤ Real.cos (Real.pi / (4 * (s : ℝ))) :=
    Real.cos_nonneg_of_neg_pi_div_two_le_of_le (by linarith [Real.pi_pos])
      (by linarith [Real.pi_pos])
  have hcos1 : Real.cos (Real.pi / (4 * (s : ℝ))) ^ 2 ≤ 1 := Real.cos_sq_le_one _
  set c := Real.cos (Real.pi / (4 * (s : ℝ))) with hc
  have ht : 0 ≤ t * (1 - t) := mul_nonneg h0 (by linarith)
  have hr2 : 0 ≤ r ^ 2 := sq_nonneg r
  constructor
  · apply Real.le_sqrt_of_sq_le
    have key : r ^ 2 * (1 - 2 * t * (1 - t) * (1 - (2 * c ^ 2 - 1))) - (r * c) ^ 2
        = r ^ 2 * ((1 - c ^ 2) * (1 - 2 * t) ^ 2) := by ring
    have : 0 ≤ r ^ 2 * ((1 - c ^ 2) * (1 - 2 * t) ^ 2) :=
      mul_nonneg hr2 (mul_nonneg (by linarith) (sq_nonneg _))
    linarith
  · rw [Real.sqrt_le_left (le_of_lt hr)]
    have key : r ^ 2 - r ^ 2 * (1 - 2 * t * (1 - t) * (1 - (2 * c ^ 2 - 1)))
        = r ^ 2 * (4 * (t * (1 - t)) * (1 - c ^ 2)) := by ring
    have : 0 ≤ r ^ 2 * (4 * (t * (1 - t)) * (1 - c ^ 2)) :=
      mul_nonneg hr2 (mul_nonneg (by linarith) (by linarith))
    linarith

/-- C9: over the real numbers, for `r > 0` and `s ≥ 1`, every point
`q = (1 - t)*p + t*p'` (`0 ≤ t ≤ 1`) on every edge of the closed contour
`circle_polygon cx cy r s`, from point `k` to point `k + 1` and from the last
point back to the first, satisfies `r*cos(π/(4*s)) ≤ dist(q, (cx, cy)) ≤ r`:
the radial deviation from the circle is at most `r*(1 - cos(π/(4*s)))`. -/
theorem circle_polygon_radial_deviation (cx cy r : ℝ) (s : Int) (hr : 0 < r)
    (hs : 1 ≤ s) :
    ∀ k : Nat, k < (circle_polygon ⟨Real.pi, Real.sin, Real.cos⟩ cx cy r s).length →
      ∃ p q : Point ℝ,
        (circle_polygon ⟨Real.pi, Real.sin, Real.cos⟩ cx cy r s)[k]? = some p ∧
        (circle_polygon ⟨Real.pi, Real.sin, Real.cos⟩ cx cy r s)[(k + 1)
            % (circle_polygon ⟨Real.pi, Real.sin, Real.cos⟩ cx cy r s).length]? = some q ∧
        ∀ t : ℝ, 0 ≤ t → t ≤ 1 →
          r * Real.cos (Real.pi / (4 * (s : ℝ)))
            ≤ Real.sqrt (((1 - t) * p.X + t * q.X - cx) ^ 2
                + ((1 - t) * p.Y + t * q.Y - cy) ^ 2) ∧
          Real.sqrt (((1 - t) * p.X + t * q.X - cx) ^ 2
                + ((1 - t) * p.Y + t * q.Y - cy) ^ 2) ≤ r ∧
          r - Real.sqrt (((1 - t) * p.X + t * q.X - cx) ^ 2
                + ((1 - t) * p.Y + t * q.Y - cy) ^ 2)
            ≤ r * (1 - Real.cos (Real.pi / (4 * (s : ℝ)))) := by
  have hlen := circle.length_eq ⟨Real.pi, Real.sin, Real.cos⟩ cx cy r s hs
  have hlen2 : (circle_polygon ⟨Real.pi, Real.sin, Real.cos⟩ cx cy r s).length
      = (4 * s).toNat := by omega
  intro k hk
  rw [hlen2] at hk ⊢
  have hk2 : (k : Int) < 4 * s := by omega
  have hmod : (((k + 1) % (4 * s).toNat : Nat) : Int) < 4 * s := by
    have := Nat.mod_lt (k + 1) (by omega : 0 < (4 * s).toNat)
    omega
  refine ⟨_, _, circle_polygon_getElem? cx cy r s hs k hk2,
    circle_polygon_getElem? cx cy r s hs _ hmod, fun t h0 h1 => ?_⟩
  obtain ⟨hlo, hhi⟩ := edge_bounds cx cy r s hr hs k hk2 t h0 h1
  exact ⟨hlo, hhi, by linarith⟩

theorem circle_polygon_radial_deviation_witness :
    (0 : ℝ) < 8 ∧ (1 : Int) ≤ 1 ∧
    ∀ k : Nat, k < (circle_polygon ⟨Real.pi, Real.sin, Real.cos⟩ 24 15 8 1).length →
      ∃ p q : Point ℝ,
        (circle_polygon ⟨Real.pi, Real.sin, Real.cos⟩ 24 15 8 1)[k]? = some p ∧
        (circle_polygon ⟨Real.pi, Real.sin, Real.cos⟩ 24 15 8 1)[(k + 1)
            % (circle_polygon ⟨Real.pi, Real.sin, Real.cos⟩ 24 15 8 1).length]? = some q ∧
        ∀ t : ℝ, 0 ≤ t → t ≤ 1 →
          8 * Real.cos (Real.pi / (4 * ((1 : Int) : ℝ)))
            ≤ Real.sqrt (((1 - t) * p.X + t * q.X - 24) ^ 2
                + ((1 - t) * p.Y + t * q.Y - 15) ^ 2) ∧
          Real.sqrt (((1 - t) * p.X + t * q.X - 24) ^ 2
                + ((1 - t) * p.Y + t * q.Y - 15) ^ 2) ≤ 8 ∧
          8 - Real.sqrt (((1 - t) * p.X + t * q.X - 24) ^ 2
                + ((1 - t) * p.Y + t * q.Y - 15) ^ 2)
            ≤ 8 * (1 - Real.cos (Real.pi / (4 * ((1 : Int) : ℝ)))) :=
  ⟨by norm_num, by decide,
    circle_polygon_radial_deviation 24 15 8 1 (by norm_num) (by decide)⟩

/-! ## The slot built in `main` -/

theorem slot_s_pts {α : Type} [Field α] (math : GoMath α) (flags : Flags α) :
    (slot math flags).s_pts
      = [⟨30 - (20 - flags.radius) / 2, 15 - flags.radius⟩,
         ⟨30 + (20 - flags.radius) / 2, 15 - flags.radius⟩,
         ⟨30 + (20 - flags.radius) / 2, 15 + flags.radius⟩,
         ⟨30 - (20 - flags.radius) / 2, 15 + flags.radius⟩] := rfl

theorem slot_l_pts {α : Type} [Field α] (math : GoMath α) (flags : Flags α) :
    (slot math flags).l_pts
      = circle_polygon math (30 - (20 - flags.radius) / 2) 15 flags.radius flags.segments :=
  rfl

/-- C4: for every radius, the rectangle contour built in `main` has exactly 4
points, in the order `(lx, 15 - radius)`, `(rx, 15 - radius)`, `(rx, 15 + radius)`,
`(lx, 15 + radius)` with `lx = 30 - (20 - radius)/2`, `rx = 30 + (20 - radius)/2`;
its horizontal span is `rx - lx = 20 - radius` (12 for radius 8), and the
mirror image of each of its points in the line `x = 30` is one of its points. -/
theorem slot_rectangle (flags : Flags ℝ) :
    (slot ⟨Real.pi, Real.sin, Real.cos⟩ flags).s_pts
      = [⟨30 - (20 - flags.radius) / 2, 15 - flags.radius⟩,
         ⟨30 + (20 - flags.radius) / 2, 15 - flags.radius⟩,
         ⟨30 + (20 - flags.radius) / 2, 15 + flags.radius⟩,
         ⟨30 - (20 - flags.radius) / 2, 15 + flags.radius⟩] ∧
    (slot ⟨Real.pi, Real.sin, Real.cos⟩ flags).s_pts.length = 4 ∧
    (30 + (20 - flags.radius) / 2) - (30 - (20 - flags.radius) / 2) = 20 - flags.radius ∧
    (flags.radius = 8 →
      (30 + (20 - flags.radius) / 2) - (30 - (20 - flags.radius) / 2) = 12) ∧
    (∀ p ∈ (slot ⟨Real.pi, Real.sin, Real.cos⟩ flags).s_pts,
      (⟨2 * 30 - p.X, p.Y⟩ : Point ℝ) ∈ (slot ⟨Real.pi, Real.sin, Real.cos⟩ flags).s_pts) := by
  refine ⟨rfl, rfl, by ring, fun h => by rw [h]; norm_num, ?_⟩
  intro p hp
  rw [slot_s_pts] at hp ⊢
  simp only [List.mem_cons, List.mem_singleton, List.not_mem_nil, or_false] at hp ⊢
  rcases hp with rfl | rfl | rfl | rfl
  · right; left; congr 1; ring
  · left; congr 1; ring
  · right; right; right; congr 1; ring
  · right; right; left; congr 1; ring

/-- C10: over the real numbers, for `radius > 0` and `segments = s ≥ 1`, point 0
of the left-circle contour built in `main` is the rectangle's first corner
`(lx, 15 - radius)`, point `2*s` is the rectangle's fourth corner
`(lx, 15 + radius)`, and every point of the left-circle contour has its `y`
coordinate within `[15 - radius, 15 + radius]`. -/
theorem slot_rectangle_meets_left_circle (flags : Flags ℝ) (hr : 0 < flags.radius)
    (hs : 1 ≤ flags.segments) :
    (slot ⟨Real.pi, Real.sin, Real.cos⟩ flags).l_pts[0]?
      = some ⟨30 - (20 - flags.radius) / 2, 15 - flags.radius⟩ ∧
    (slot ⟨Real.pi, Real.sin, Real.cos⟩ flags).s_pts[0]?
      = some ⟨30 - (20 - flags.radius) / 2, 15 - flags.radius⟩ ∧
    (slot ⟨Real.pi, Real.sin, Real.cos⟩ flags).l_pts[(2 * flags.segments).toNat]?
      = some ⟨30 - (20 - flags.radius) / 2, 15 + flags.radius⟩ ∧
    (slot ⟨Real.pi, Real.sin, Real.cos⟩ flags).s_pts[3]?
      = some ⟨30 - (20 - flags.radius) / 2, 15 + flags.radius⟩ ∧
    (∀ p ∈ (slot ⟨Real.pi, Real.sin, Real.cos⟩ flags).l_pts,
      15 - flags.radius ≤ p.Y ∧ p.Y ≤ 15 + flags.radius) := by
  have hn : (flags.segments : ℝ) ≠ 0 := ne_of_gt (cast_pos_of_one_le _ hs)
  refine ⟨?_, rfl, ?_, rfl, ?_⟩
  · rw [slot_l_pts, circle_polygon_getElem? _ _ _ _ hs 0 (by omega)]
    simp [regular_vertex]
  · rw [slot_l_pts, circle_polygon_getElem? _ _ _ _ hs _ (by omega)]
    have hc : (((2 * flags.segments).toNat : Nat) : ℝ) = 2 * (flags.segments : ℝ) := by
      have : (((2 * flags.segments).toNat : Nat) : Int) = 2 * flags.segments := by omega
      have h2 : ((((2 * flags.segments).toNat : Nat) : Int) : ℝ)
          = ((2 * flags.segments : Int) : ℝ) := by rw [this]
      push_cast at h2
      exact h2
    have ha : (((2 * flags.segments).toNat : Nat) : ℝ) * Real.pi / (2 * (flags.segments : ℝ))
        = Real.pi := by
      rw [hc]; field_simp
    simp only [regular_vertex]
    rw [ha, Real.sin_pi, Real.cos_pi]
    congr 2 <;> ring
  · intro p hp
    rw [slot_l_pts] at hp
    obtain ⟨k, _, rfl⟩ := (mem_circle_polygon _ _ _ _ hs p).mp hp
    simp only [regular_vertex]
    have h1 := Real.cos_le_one ((k : ℝ) * Real.pi / (2 * (flags.segments : ℝ)))
    have h2 := Real.neg_one_le_cos ((k : ℝ) * Real.pi / (2 * (flags.segments : ℝ)))
    constructor <;> nlinarith

theorem slot_rectangle_meets_left_circle_witness :
    (0 : ℝ) < 8 ∧ (1 : Int) ≤ 1 ∧
    (slot ⟨Real.pi, Real.sin, Real.cos⟩ ⟨1, 8, false⟩).l_pts[0]?
      = some ⟨30 - (20 - 8) / 2, 15 - 8⟩ ∧
    (slot ⟨Real.pi, Real.sin, Real.cos⟩ ⟨1, 8, false⟩).s_pts[0]?
      = some ⟨30 - (20 - 8) / 2, 15 - 8⟩ ∧
    (slot ⟨Real.pi, Real.sin, Real.cos⟩ ⟨1, 8, false⟩).l_pts[(2 * (1 : Int)).toNat]?
      = some ⟨30 - (20 - 8) / 2, 15 + 8⟩ ∧
    (slot ⟨Real.pi, Real.sin, Real.cos⟩ ⟨1, 8, false⟩).s_pts[3]?
      = some ⟨30 - (20 - 8) / 2, 15 + 8⟩ ∧
    (∀ p ∈ (slot ⟨Real.pi, Real.sin, Real.cos⟩ ⟨1, 8, false⟩).l_pts,
      15 - (8 : ℝ) ≤ p.Y ∧ p.Y ≤ 15 + 8) :=
  ⟨by norm_num, by decide,
    slot_rectangle_meets_left_circle ⟨1, 8, false⟩ (by norm_num) (by decide)⟩

/-! ## The operation loop and the run of `main` -/

theorem draw_row_name {α : Type} (name : String) (op_poly : Polygon α)
    (calls : List (Call α)) : (draw_row name op_poly calls).name = name := by
  unfold draw_row; split <;> rfl

theorem draw_row_op_poly {α : Type} (name : String) (op_poly : Polygon α)
    (calls : List (Call α)) : (draw_row name op_poly calls).op_poly = op_poly := by
  unfold draw_row; split <;> rfl

theorem draw_row_calls {α : Type} (name : String) (op_poly : Polygon α)
    (calls : List (Call α)) : (draw_row name op_poly calls).calls = calls := by
  unfold draw_row; split <;> rfl

theorem main_created {α : Type} [Field α] (math : GoMath α)
    (Construct : Polygon α → Op → Polygon α → Polygon α) (flags : Flags α) :
    main math Construct flags true
      = Except.ok
          ⟨if flags.add_right_circle then
              [(slot math flags).s_pts, (slot math flags).l_pts, (slot math flags).r_pts]
            else [(slot math flags).s_pts, (slot math flags).l_pts],
           if flags.add_right_circle then
              [prepare (slot math flags).s_pts, prepare (slot math flags).l_pts,
               prepare (slot math flags).r_pts]
            else [prepare (slot math flags).s_pts, prepare (slot math flags).l_pts],
           operation_loop Construct flags.add_right_circle (slot math flags).s_pts
             (slot math flags).l_pts (slot math flags).r_pts⟩ := by
  unfold main
  cases flags.add_right_circle <;> rfl

/-- C3: with the boolean engine an arbitrary function `Construct`, a run of
`main` that creates its file yields one row per operation, in the order Union,
Intersection, Difference, XOR.  With `add_right_circle` set the row's polygon is
`Construct (Construct [rectangle] op [leftCircle]) op [rightCircle]`; without it
the polygon is `Construct [rectangle] op [leftCircle]` and the only call made to
the engine is that one, so the empty right-circle contour is never passed to it. -/
theorem main_operation_loop {α : Type} [Field α] (math : GoMath α)
    (Construct : Polygon α → Op → Polygon α → Polygon α) (flags : Flags α) :
    ∃ out : Output α, main math Construct flags true = Except.ok out ∧
      out.rows.map (fun row => (row.name, row.op_poly, row.calls))
        = [("Union", Op.UNION), ("Intersection", Op.INTERSECTION),
           ("Difference", Op.DIFFERENCE), ("XOR", Op.XOR)].map
            (fun no =>
              if flags.add_right_circle then
                (no.1,
                 Construct (Construct [(slot math flags).s_pts] no.2 [(slot math flags).l_pts])
                   no.2 [(slot math flags).r_pts],
                 [⟨[(slot math flags).s_pts], no.2, [(slot math flags).l_pts]⟩,
                  ⟨Construct [(slot math flags).s_pts] no.2 [(slot math flags).l_pts], no.2,
                   [(slot math flags).r_pts]⟩])
              else
                (no.1,
                 Construct [(slot math flags).s_pts] no.2 [(slot math flags).l_pts],
                 [⟨[(slot math flags).s_pts], no.2, [(slot math flags).l_pts]⟩])) := by
  refine ⟨_, main_created math Construct flags, ?_⟩
  have hU : op_map "Union" = Op.UNION := by decide
  have hI : op_map "Intersection" = Op.INTERSECTION := by decide
  have hD : op_map "Difference" = Op.DIFFERENCE := by decide
  have hX : op_map "XOR" = Op.XOR := by decide
  cases hadd : flags.add_right_circle <;>
    simp [operation_loop, ops, operation, draw_row_name, draw_row_op_poly, draw_row_calls,
      hU, hI, hD, hX]

theorem main_not_created {α : Type} [Field α] (math : GoMath α)
    (Construct : Polygon α → Op → Polygon α → Polygon α) (flags : Flags α) :
    main math Construct flags false
      = Except.error "ERROR: Unable to create the 'polycliptest.svg' file..." := rfl

theorem main_builds_shapes {α : Type} [Field α] (math : GoMath α)
    (Construct : Polygon α → Op → Polygon α → Polygon α) (flags : Flags α) :
    ∃ out : Output α, main math Construct flags true = Except.ok out ∧
      out.printed.take 2 = [(slot math flags).s_pts, (slot math flags).l_pts] ∧
      out.drawn.take 2 = [prepare (slot math flags).s_pts, prepare (slot math flags).l_pts] := by
  refine ⟨_, main_created math Construct flags, ?_, ?_⟩ <;>
    cases flags.add_right_circle <;> rfl

/-- C7, refuted at `radius = 20` (`segments = 1`, no right circle, the file
created, the engine returning its subject): `main` does not fail; it builds,
prints and draws the rectangle `(30,-5), (30,-5), (30,35), (30,35)` of span 0
and the left circle `(30,-5), (50,15), (30,35), (10,15)`. -/
theorem radius_eq_width_is_drawn :
    (20 : ℝ) ≤ 20 ∧
    ∃ out : Output ℝ,
      main ⟨Real.pi, Real.sin, Real.cos⟩ (fun p _ _ => p) ⟨1, 20, false⟩ true
        = Except.ok out ∧
      out.printed = [[⟨30, -5⟩, ⟨30, -5⟩, ⟨30, 35⟩, ⟨30, 35⟩],
                     [⟨30, -5⟩, ⟨50, 15⟩, ⟨30, 35⟩, ⟨10, 15⟩]] ∧
      out.drawn = [([30, 30, 30, 30], [-5, -5, 35, 35]),
                   ([30, 50, 30, 10], [-5, 15, 35, 15])] := by
  have hs : (slot ⟨Real.pi, Real.sin, Real.cos⟩ (⟨1, 20, false⟩ : Flags ℝ)).s_pts
      = [⟨30, -5⟩, ⟨30, -5⟩, ⟨30, 35⟩, ⟨30, 35⟩] := by
    rw [slot_s_pts]; norm_num
  have hl : (slot ⟨Real.pi, Real.sin, Real.cos⟩ (⟨1, 20, false⟩ : Flags ℝ)).l_pts
      = [⟨30, -5⟩, ⟨50, 15⟩, ⟨30, 35⟩, ⟨10, 15⟩] := by
    rw [slot_l_pts, circle_polygon_one]; norm_num
  refine ⟨le_refl _, _, main_created _ _ _, ?_, ?_⟩
  · simp only [Bool.false_eq_true, if_false, hs, hl]
  · simp only [Bool.false_eq_true, if_false, hs, hl]
    simp [prepare]

/-- C7, amended: `main` makes no check of the radius against the width.  For
every radius `≥ 20` the shapes are still assembled: the rectangle, whose
horizontal span `20 - radius` is then `≤ 0`, and the left circle contour are
built and printed, and drawn when the output file is created; the one failure
of `main` is the panic when the file cannot be created. -/
theorem main_no_radius_check (Construct : Polygon ℝ → Op → Polygon ℝ → Polygon ℝ)
    (flags : Flags ℝ) (hr : 20 ≤ flags.radius) :
    (∃ out : Output ℝ,
      main ⟨Real.pi, Real.sin, Real.cos⟩ Construct flags true = Except.ok out ∧
      out.printed.take 2
        = [[⟨30 - (20 - flags.radius) / 2, 15 - flags.radius⟩,
            ⟨30 + (20 - flags.radius) / 2, 15 - flags.radius⟩,
            ⟨30 + (20 - flags.radius) / 2, 15 + flags.radius⟩,
            ⟨30 - (20 - flags.radius) / 2, 15 + flags.radius⟩],
           circle_polygon ⟨Real.pi, Real.sin, Real.cos⟩ (30 - (20 - flags.radius) / 2) 15
             flags.radius flags.segments] ∧
      out.drawn.take 2
        = [([30 - (20 - flags.radius) / 2, 30 + (20 - flags.radius) / 2,
             30 + (20 - flags.radius) / 2, 30 - (20 - flags.radius) / 2],
            [15 - flags.radius, 15 - flags.radius, 15 + flags.radius, 15 + flags.radius]),
           prepare (circle_polygon ⟨Real.pi, Real.sin, Real.cos⟩
             (30 - (20 - flags.radius) / 2) 15 flags.radius flags.segments)]) ∧
    (30 + (20 - flags.radius) / 2) - (30 - (20 - flags.radius) / 2) ≤ 0 ∧
    main ⟨Real.pi, Real.sin, Real.cos⟩ Construct flags false
      = Except.error "ERROR: Unable to create the 'polycliptest.svg' file..." := by
  refine ⟨?_, by linarith, main_not_created _ _ _⟩
  obtain ⟨out, hout, hp, hd⟩ := main_builds_shapes ⟨Real.pi, Real.sin, Real.cos⟩ Construct flags
  refine ⟨out, hout, ?_, ?_⟩
  · rw [hp, slot_s_pts, slot_l_pts]
  · rw [hd, slot_s_pts, slot_l_pts]
    simp [prepare]

theorem main_no_radius_check_witness :
    (20 : ℝ) ≤ 25 ∧
    ((∃ out : Output ℝ,
      main ⟨Real.pi, Real.sin, Real.cos⟩ (fun p _ _ => p) ⟨1, 25, false⟩ true
        = Except.ok out ∧
      out.printed.take 2
        = [[⟨30 - (20 - 25) / 2, 15 - 25⟩, ⟨30 + (20 - 25) / 2, 15 - 25⟩,
            ⟨30 + (20 - 25) / 2, 15 + 25⟩, ⟨30 - (20 - 25) / 2, 15 + 25⟩],
           circle_polygon ⟨Real.pi, Real.sin, Real.cos⟩ (30 - (20 - 25) / 2) 15 25 1] ∧
      out.drawn.take 2
        = [([30 - (20 - 25) / 2, 30 + (20 - 25) / 2,
             30 + (20 - 25) / 2, 30 - (20 - 25) / 2],
            [15 - 25, 15 - 25, 15 + 25, 15 + 25]),
           prepare (circle_polygon ⟨Real.pi, Real.sin, Real.cos⟩
             (30 - (20 - 25) / 2) 15 25 1)]) ∧
    (30 + (20 - 25) / 2) - (30 - (20 - 25) / 2) ≤ (0 : ℝ) ∧
    main ⟨Real.pi, Real.sin, Real.cos⟩ (fun p _ _ => p) (⟨1, 25, false⟩ : Flags ℝ) false
      = Except.error "ERROR: Unable to create the 'polycliptest.svg' file...") :=
  ⟨by norm_num, main_no_radius_check (fun p _ _ => p) ⟨1, 25, false⟩ (by norm_num)⟩

end Polycliptest
